/-
Verification of the LiFE (Linear Fascicle Evaluation) engine of
dipy/tracking/life.py: streamline-to-voxel indexing, design-matrix
assembly, the forward tensor/signal model, and the non-negative
projected-gradient solver.

The embedding follows the source closely: numpy float coordinates become
rationals, integer voxel indices become `ℤ`, arrays become lists or
`Fin n → ℚ` functions, and the sparse COO assembly becomes an explicit
list of (row-block, column, signal) entries.  Helpers the repository
calls but does not ship (`unique_rows` and `xform` from
dipy.tracking.utils, the `sgd` solver module) are modelled from the
spec, with a doc comment saying so.
-/

import Mathlib

namespace Life

/-! ## Voxel assignment (FiberGroup.idx, FiberGroup.voxel2fiber)

The source converts node coordinates to voxel indices with
`coords.astype(int)`: numpy's C-style cast, which truncates toward
zero. -/

/-- Numpy's `astype(int)` on a float value: truncation toward zero
(floor for non-negative values, ceiling for negative ones).  This is
the conversion `FiberGroup.idx` and `FiberGroup.voxel2fiber` apply to
node coordinates. -/
def npAstypeInt (q : ℚ) : ℤ :=
  if 0 ≤ q then ⌊q⌋ else ⌈q⌉

/-- Round to the nearest integer with ties broken away from zero: the
convention the spec claims for voxel assignment (stated from the
spec's words, for comparison with `npAstypeInt`). -/
def roundHalfAwayFromZero (q : ℚ) : ℤ :=
  if 0 ≤ q then ⌊q + 1/2⌋ else ⌈q - 1/2⌉

/-- A node coordinate, as a rational triple. -/
abbrev Node := ℚ × ℚ × ℚ

/-- A voxel index triple. -/
abbrev Voxel := ℤ × ℤ × ℤ

/-- Componentwise `astype(int)` of one node: the voxel the source
assigns the node to. -/
def voxelOf3 (p : Node) : Voxel :=
  (npAstypeInt p.1, npAstypeInt p.2.1, npAstypeInt p.2.2)

/-- Componentwise round-half-away-from-zero of one node: the voxel the
spec's claimed convention assigns the node to. -/
def roundVoxelOf3 (p : Node) : Voxel :=
  (roundHalfAwayFromZero p.1, roundHalfAwayFromZero p.2.1,
   roundHalfAwayFromZero p.2.2)

/-! ## Unique voxel set (FiberGroup.fg_idx_unique) -/

/-- Modelled from the spec: `unique_rows` (imported from
dipy.tracking.utils, which is not among the repository's files) returns
"the deduplicated sorted set of visited voxel coordinates".  Modelled
as first-occurrence deduplication; every property proved below is
order-independent. -/
def uniqueRows {α : Type} [DecidableEq α] (l : List α) : List α :=
  l.foldl (fun acc x => if x ∈ acc then acc else acc ++ [x]) []

/-- A fiber's node coordinates, already in voxel-index space (the
affine has been applied): the per-fiber `coords` attribute. -/
abbrev FiberCoords := List Node

/-- `FiberGroup._get_coords`: all nodes of all fibers, concatenated
(`np.hstack`). -/
def fgCoords (fibers : List FiberCoords) : List Node :=
  fibers.flatten

/-- `FiberGroup.idx`: the concatenated coordinates cast with
`astype(int)`. -/
def fgIdx (fibers : List FiberCoords) : List Voxel :=
  (fgCoords fibers).map voxelOf3

/-- `FiberGroup.fg_idx_unique`: `unique_rows` of `FiberGroup.idx`. -/
def fgIdxUnique (fibers : List FiberCoords) : List Voxel :=
  uniqueRows (fgIdx fibers)

/-! ## The incidence map (FiberGroup.voxel2fiber)

`voxel2fiber` builds two grids: `v2f[voxel, fiber]`, incremented once
per node of that fiber falling in that voxel, and `v2fn[fiber, node]`,
the serial number of the node's voxel in the unique voxel list (grid
cells never reached stay `nan`, modelled as `none`). -/

/-- The index of the first (and, on a deduplicated list, only)
occurrence of `a` in `l`: the source's
`np.where(vv == unique)[0]` lookup of a voxel's serial number. -/
def findIdx {α : Type} [DecidableEq α] (l : List α) (a : α) : Option ℕ :=
  (List.range l.length).find? (fun i => l.get? i = some a)

/-- `v2f`: for each unique voxel (rows) and each fiber (columns), how
many nodes of that fiber were cast into that voxel; the source
increments the cell once per node visit. -/
def v2fCounts (fibers : List FiberCoords) : List (List ℕ) :=
  (fgIdxUnique fibers).map fun v =>
    fibers.map fun f => (f.filter (fun p => voxelOf3 p = v)).length

/-- `v2fn`: for each fiber (rows) and node position (columns), the
serial number of the node's voxel in the unique voxel list; positions
past the fiber's end keep the `nans` fill, modelled as `none`.  The
grid is `n_fibers` by the maximal fiber length. -/
def v2fnGrid (fibers : List FiberCoords) : List (List (Option ℕ)) :=
  let uniq := fgIdxUnique fibers
  let maxLen := (fibers.map List.length).foldr max 0
  fibers.map fun f =>
    f.map (fun p => findIdx uniq (voxelOf3 p)) ++
      List.replicate (maxLen - f.length) none

/-! ## Design-matrix assembly (FiberModel.matrix)

For each unique voxel, the source loops over the incident fibers
(`np.where(v2f[v_idx])`), accumulating for each one the demeaned
per-node signal of its nodes in that voxel; but the statements that
store the row block, the column index and the accumulated signal into
the COO arrays are indented under the *voxel* loop, after the fiber
loop has finished, so they see only the fiber loop's final values of
`f_idx` and `pred_sig`. -/

/-- Elementwise sum of two equal-length signal vectors (`pred_sig +=`). -/
def listAdd (xs ys : List ℚ) : List ℚ :=
  List.zipWith (· + ·) xs ys

/-- `np.zeros(n)`. -/
def zerosQ (n : ℕ) : List ℚ :=
  List.replicate n 0

/-- Mean of a signal vector over its directions (`np.mean`). -/
def listMean (xs : List ℚ) : ℚ :=
  xs.sum / xs.length

/-- The demeaned contribution of one node, as the source computes it in
`relative_signal` mode: the node's predicted relative signal minus a
scalar mean `m` (in the source, `np.mean` of the *measured* relative
signal at the node's voxel, broadcast over directions). -/
def nodeContrib (pred : List ℚ) (m : ℚ) : List ℚ :=
  pred.map (fun x => x - m)

/-- The demeaning the claim describes: the node's predicted signal
minus *its own* mean (stated from the spec's words, for comparison
with `nodeContrib`). -/
def nodeContribOwnMean (pred : List ℚ) : List ℚ :=
  nodeContrib pred (listMean pred)

/-- The inputs `FiberModel.matrix` consumes: the direction count, the
number of unique voxels, the two incidence grids, the per-fiber
per-node predicted relative signal (`FiberModel.fiber_signal`), and
the per-voxel mean of the measured relative signal
(`np.mean(self.relative_signal[vox])`). -/
structure MatrixInput where
  nBvecs : ℕ
  nVox : ℕ
  v2f : List (List ℕ)
  v2fn : List (List (Option ℕ))
  fiberSignal : ℕ → ℕ → List ℚ
  voxMean : ℕ → ℚ

/-- `np.where(v2fn[f_idx] == v_idx)[0]`: the node positions of fiber
`f` whose voxel serial number is `v`. -/
def nodesInVoxel (row : List (Option ℕ)) (v : ℕ) : List ℕ :=
  (List.range row.length).filter (fun n => row.get? n = some (some v))

/-- The inner node loop: `pred_sig = np.zeros(n_bvecs)` then
`pred_sig += relative_signal - np.mean(...)` over the fiber's nodes in
the voxel. -/
def predSigFor (inp : MatrixInput) (f v : ℕ) : List ℚ :=
  (nodesInVoxel (inp.v2fn.getD f []) v).foldl
    (fun acc n => listAdd acc (nodeContrib (inp.fiberSignal f n) (inp.voxMean v)))
    (zerosQ inp.nBvecs)

/-- `np.where(v2f[v_idx])[0]`: the fibers with a nonzero node count in
the voxel. -/
def incidentFibers (v2fRow : List ℕ) : List ℕ :=
  (List.range v2fRow.length).filter (fun f => v2fRow.getD f 0 ≠ 0)

/-- One stored block of the fiber matrix: the voxel serial number
(whose `n_bvecs` rows the block occupies), the column (fiber) index,
and the signal vector written there. -/
structure CooBlock where
  voxelRow : ℕ
  fiberCol : ℕ
  signal : List ℚ
deriving DecidableEq, Repr

/-- The fiber-matrix assembly loop of `FiberModel.matrix`, as the
source is written: for each voxel the fiber loop recomputes
`(f_idx, pred_sig)` for every incident fiber, and the store into
`f_matrix_row/col/sig` runs once per voxel *after* that loop, writing
the loop variables' final values (the Python loop variables persist
across iterations, so the carried pair models them; it starts from
fiber 0 with the preallocated zero signal, a state no demo below ever
reads). -/
def srcMatrixBlocks (inp : MatrixInput) : List CooBlock :=
  ((List.range inp.nVox).foldl
    (fun (st : (ℕ × List ℚ) × List CooBlock) v =>
      let last := (incidentFibers (inp.v2f.getD v [])).foldl
        (fun _ f => (f, predSigFor inp f v)) st.1
      (last, st.2 ++ [⟨v, last.1, last.2⟩]))
    ((0, zerosQ inp.nBvecs), [])).2

/-- The assembly the claim describes: one block per (voxel, incident
fiber) pair, each holding that fiber's summed demeaned node signal
(stated from the spec's words, for comparison with
`srcMatrixBlocks`). -/
def claimMatrixBlocks (inp : MatrixInput) : List CooBlock :=
  (List.range inp.nVox).flatMap fun v =>
    (incidentFibers (inp.v2f.getD v [])).map fun f =>
      ⟨v, f, predSigFor inp f v⟩

/-- A one-voxel, two-fiber instance: both fibers have their single
node in voxel 0, with distinct predicted signals over two weighted
directions, and a zero measured voxel mean. -/
def demoMatrixInput : MatrixInput where
  nBvecs := 2
  nVox := 1
  v2f := [[1, 1]]
  v2fn := [[some 0], [some 0]]
  fiberSignal := fun f _ => if f = 0 then [2, 4] else [10, 20]
  voxMean := fun _ => 0

/-! ## The forward signal model (apparent_diffusion_coef,
Fiber.tensors, Fiber.predicted_signal) -/

/-- The quadratic form `d·Q·dᵀ` of one direction against a tensor: one
entry of `np.diag(bvecs.T * q * bvecs)` in the module-level
`apparent_diffusion_coef`. -/
def adcQ (d : Fin 3 → ℚ) (q : Matrix (Fin 3) (Fin 3) ℚ) : ℚ :=
  ∑ i, ∑ j, d i * q i j * d j

/-- `apparent_diffusion_coef`: the per-direction ADC values
`diag(bvecs.T * q * bvecs)` for a list of directions. -/
def apparent_diffusion_coef (bvecs : List (Fin 3 → ℚ))
    (q : Matrix (Fin 3) (Fin 3) ℚ) : List ℚ :=
  bvecs.map (fun d => adcQ d q)

/-- The exponents `Fiber.predicted_signal` hands to `np.exp`: the raw
ADC values, with no sign flip and no b-value factor (the source's
`return np.exp(ADC)`). -/
def predictedSignalExponents (q : Matrix (Fin 3) (Fin 3) ℚ)
    (bvecs : List (Fin 3 → ℚ)) : List ℚ :=
  apparent_diffusion_coef bvecs q

/-- The exponents of the single-compartment Stejskal-Tanner law the
claim (and the source's own docstring) states: `-bval * (d·Q·dᵀ)` per
weighted direction (stated from the spec's words, for comparison with
`predictedSignalExponents`). -/
def stejskalTannerExponents (bvals : List ℚ) (bvecs : List (Fin 3 → ℚ))
    (q : Matrix (Fin 3) (Fin 3) ℚ) : List ℚ :=
  (bvals.zip bvecs).map (fun bd => -(bd.1 * adcQ bd.2 q))

/-- The per-node tensor `Fiber.tensors` builds from the SVD right
factor `vh` of the local gradient: the source computes
`usv[2] * d_matrix * usv[2]` with
`d_matrix = diag(axial, radial, radial)` — two diffusivities only, and
no transpose on either factor.  For the tangent `[1, 0, 0]` the SVD of
the 1-by-3 matrix `[[1, 0, 0]]` has `vh = I`, so `fiberTensorQ 1` is
the tensor built at such a node. -/
def fiberTensorQ (vh : Matrix (Fin 3) (Fin 3) ℚ) (axial radial : ℚ) :
    Matrix (Fin 3) (Fin 3) ℚ :=
  vh * Matrix.diagonal ![axial, radial, radial] * vh

/-! ## Fiber construction (Fiber.__init__)

`np.asarray(coords)` can have any rank; the constructor raises only
when `len(coords.shape) > 2 or coords.shape[0] != 3`, and then counts
`n_nodes = coords.shape[-1]` for a 2-d array and `n_nodes = 1` for a
1-d one (the source's comment: "This is the case in which there is
only one coordinate/node"). -/

/-- The shapes of coordinate input relevant to the constructor's
check: a 1-d array of the given entries, a 2-d array of the given
rows, or an array of more than two dimensions (only its shape matters
to the check, so only the leading dimension is carried). -/
inductive CoordsArray where
  | one (xs : List ℚ)
  | two (rows : List (List ℚ))
  | higher (dim0 : ℕ)
deriving DecidableEq, Repr

/-- What survives of a constructed Fiber for the claims here: the
accepted coordinates and the node count. -/
structure FiberData where
  coords : CoordsArray
  nNodes : ℕ
deriving DecidableEq, Repr

/-- `Fiber.__init__`'s input check and node count: reject when the
array has more than two dimensions or its first dimension is not 3;
otherwise accept, with `n_nodes` the last dimension for a 2-d array
and 1 for a 1-d one. -/
def fiberInit (c : CoordsArray) : Except String FiberData :=
  match c with
  | .higher _ => .error "please reshape to be 3 by n"
  | .one xs =>
      if xs.length = 3 then .ok ⟨c, 1⟩
      else .error "please reshape to be 3 by n"
  | .two rows =>
      if rows.length = 3 then .ok ⟨c, (rows.headD []).length⟩
      else .error "please reshape to be 3 by n"

/-! ## Affine transformation (Fiber.xform)

`xform(coords, affine)` is imported from dipy.tracking.utils, which is
not among the repository's files. -/

/-- The explicit inverse of a rational 4-by-4 matrix,
`det⁻¹ • adjugate`; it agrees with Mathlib's noncomputable `A⁻¹`
(`matInv_eq_inv` below) and models numpy's `matrix.getI()`. -/
def matInv (A : Matrix (Fin 4) (Fin 4) ℚ) : Matrix (Fin 4) (Fin 4) ℚ :=
  A.det⁻¹ • A.adjugate

/-- A node in homogeneous coordinates: the appended 1. -/
def homogenize (p : Fin 3 → ℚ) : Fin 4 → ℚ :=
  Fin.snoc p 1

/-- Drop the homogeneous coordinate. -/
def projectHom (v : Fin 4 → ℚ) : Fin 3 → ℚ :=
  fun i => v i.castSucc

/-- Modelled from the spec: `xform` (from dipy.tracking.utils, not
among the repository's files) applies "an affine transform (4*4,
homogeneous) mapping streamline coordinates" to each node — append a
1, multiply by the matrix, keep the first three components. -/
def applyAffine (A : Matrix (Fin 4) (Fin 4) ℚ) (p : Fin 3 → ℚ) :
    Fin 3 → ℚ :=
  projectHom (A.mulVec (homogenize p))

/-- The state of a Fiber that `Fiber.xform(inplace=True)` mutates: its
coordinates and its affine (`None` standing for the identity). -/
structure LifeFiber where
  coords : List (Fin 3 → ℚ)
  affine : Option (Matrix (Fin 4) (Fin 4) ℚ)

/-- `Fiber.xform()` with the default arguments, as a state
transformer: with no stored affine it returns unchanged; otherwise it
maps every node through the stored affine and replaces the affine by
its inverse (`self.affine = affine.getI()`). -/
def fiberXform (f : LifeFiber) : LifeFiber :=
  match f.affine with
  | none => f
  | some A => ⟨f.coords.map (applyAffine A), some (matInv A)⟩

/-! ## The non-negative solver (FiberModel.fiber_weights)

`fiber_weights` calls `sgd.stochastic_gradient_descent`; the `sgd`
module is not among the repository's files, so the solver is modelled
from the spec's §4.4. -/

/-- Dot product of two weight/row vectors. -/
def dotQ {n : ℕ} (x y : Fin n → ℚ) : ℚ :=
  ∑ i, x i * y i

/-- The residual `Aw - y`. -/
def lsResidual {m n : ℕ} (A : Fin m → Fin n → ℚ) (y : Fin m → ℚ)
    (w : Fin n → ℚ) : Fin m → ℚ :=
  fun i => dotQ (A i) w - y i

/-- The least-squares gradient `Aᵗ(Aw - y)`. -/
def lsGradient {m n : ℕ} (A : Fin m → Fin n → ℚ) (y : Fin m → ℚ)
    (w : Fin n → ℚ) : Fin n → ℚ :=
  fun j => ∑ i, A i j * lsResidual A y w i

/-- Modelled from the spec: one solver step,
`w ← max(0, w - step_size * gradient)` — the max-with-zero projection
of the gradient update. -/
def pgdStep {m n : ℕ} (step : ℚ) (A : Fin m → Fin n → ℚ)
    (y : Fin m → ℚ) (w : Fin n → ℚ) : Fin n → ℚ :=
  fun j => max 0 (w j - step * lsGradient A y w j)

/-- The residual sum of squared errors over the entire row set,
evaluated at checkpoints. -/
def sse {m n : ℕ} (A : Fin m → Fin n → ℚ) (y : Fin m → ℚ)
    (w : Fin n → ℚ) : ℚ :=
  ∑ i, (lsResidual A y w i) ^ 2

/-- The solver's loop state: current iterate, best checkpointed
weights, best checkpointed error, and the consecutive-non-improvement
counter. -/
structure SgdState (n : ℕ) where
  w : Fin n → ℚ
  bestW : Fin n → ℚ
  bestErr : ℚ
  nonImproving : ℕ

/-- Modelled from the spec: a checkpoint computes the full-row-set
error, and either records a new best (resetting the counter) or
increments the consecutive-non-improvement counter. -/
def sgdCheckpoint {m n : ℕ} (A : Fin m → Fin n → ℚ) (y : Fin m → ℚ)
    (s : SgdState n) : SgdState n :=
  let e := sse A y s.w
  if e < s.bestErr then { s with bestW := s.w, bestErr := e, nonImproving := 0 }
  else { s with nonImproving := s.nonImproving + 1 }

/-- Modelled from the spec: the solver loop — terminate once the
non-improvement counter reaches its maximum, otherwise take a
projected-gradient step and checkpoint every `ckptEvery`-th
iteration.  `fuel` bounds the iteration count; `t` is the iteration
number. -/
def sgdRun {m n : ℕ} (step : ℚ) (ckptEvery maxNonImproving : ℕ)
    (A : Fin m → Fin n → ℚ) (y : Fin m → ℚ) :
    ℕ → ℕ → SgdState n → SgdState n
  | 0, _, s => s
  | fuel + 1, t, s =>
      if maxNonImproving ≤ s.nonImproving then s
      else
        let s1 := { s with w := pgdStep step A y s.w }
        let s2 := if (t + 1) % ckptEvery = 0 then sgdCheckpoint A y s1 else s1
        sgdRun step ckptEvery maxNonImproving A y fuel (t + 1) s2

/-- Modelled from the spec: `sgd.stochastic_gradient_descent` (the
`sgd` module is not among the repository's files) — weights start at
zero, are updated by `pgdStep`, and the weights associated with the
best checkpointed error seen are returned, not the most recent
iterate. -/
def stochastic_gradient_descent {m n : ℕ} (step : ℚ)
    (ckptEvery maxNonImproving maxIter : ℕ) (A : Fin m → Fin n → ℚ)
    (y : Fin m → ℚ) : Fin n → ℚ :=
  let w0 : Fin n → ℚ := fun _ => 0
  (sgdRun step ckptEvery maxNonImproving A y maxIter 0
    ⟨w0, w0, sse A y w0, 0⟩).bestW

/-! ## Concrete instances -/

/-- The first streamline of the spec's Scenario A,
`[[1,2,3],[4,5,3],[5,6,3],[6,7,3]]`; under the identity affine its
coordinates are already in voxel-index space. -/
def streamA : FiberCoords := [(1, 2, 3), (4, 5, 3), (5, 6, 3), (6, 7, 3)]

/-- The second streamline of the spec's Scenario A,
`[[1,2,3],[4,5,3],[5,6,3]]`. -/
def streamB : FiberCoords := [(1, 2, 3), (4, 5, 3), (5, 6, 3)]

/-- The node `[1.1, 2.4, 2.9]` of the repository's own
`test_voxel2streamline`, which that test expects to land in voxel
`(1, 2, 3)` together with the node `[1, 2, 3]`. -/
def testNode : Node := (11/10, 12/5, 29/10)

/-- A concrete invertible homogeneous affine (scaling by 2, 3, 4 with
a translation), for the xform round-trip witness. -/
def demoAffine : Matrix (Fin 4) (Fin 4) ℚ :=
  !![2, 0, 0, 1;
     0, 3, 0, -2;
     0, 0, 4, 5;
     0, 0, 0, 1]

/-- A two-node fiber carrying `demoAffine`. -/
def demoFiber : LifeFiber :=
  ⟨[![1, 2, 3], ![4, 5, 3]], some demoAffine⟩

/-! # Theorems -/

/-! ## The deduplicated voxel set -/

theorem mem_foldl_uniqueRows {α : Type} [DecidableEq α]
    (l : List α) (acc : List α) (x : α) :
    x ∈ l.foldl (fun acc x => if x ∈ acc then acc else acc ++ [x]) acc ↔
      x ∈ acc ∨ x ∈ l := by
  induction l generalizing acc with
  | nil => simp
  | cons y ys ih =>
      simp only [List.foldl_cons, ih, List.mem_cons]
      by_cases hy : y ∈ acc
      · simp only [if_pos hy]
        constructor
        · rintro (h | h)
          · exact Or.inl h
          · exact Or.inr (Or.inr h)
        · rintro (h | h | h)
          · exact Or.inl h
          · exact Or.inl (h ▸ hy)
          · exact Or.inr h
      · simp only [if_neg hy, List.mem_append, List.mem_singleton]
        tauto

theorem mem_uniqueRows {α : Type} [DecidableEq α] (l : List α) (x : α) :
    x ∈ uniqueRows l ↔ x ∈ l := by
  unfold uniqueRows
  rw [mem_foldl_uniqueRows]
  simp

/-- C6: the unique voxel set `FiberGroup.fg_idx_unique` is exactly the
set of voxel-converted node coordinates over all streamlines — every
voxel in it is some node's voxel, and every node's voxel is in it. -/
theorem fg_idx_unique_exactly_node_voxels
    (fibers : List FiberCoords) (v : Voxel) :
    v ∈ fgIdxUnique fibers ↔ ∃ f ∈ fibers, ∃ p ∈ f, voxelOf3 p = v := by
  unfold fgIdxUnique fgIdx fgCoords
  rw [mem_uniqueRows, List.mem_map]
  constructor
  · rintro ⟨p, hp, rfl⟩
    rcases List.mem_flatten.mp hp with ⟨f, hf, hpf⟩
    exact ⟨f, hf, p, hpf, rfl⟩
  · rintro ⟨f, hf, p, hpf, rfl⟩
    exact ⟨p, List.mem_flatten.mpr ⟨f, hf, hpf⟩, rfl⟩

/-! ## The solver keeps weights non-negative -/

theorem pgdStep_nonneg {m n : ℕ} (step : ℚ) (A : Fin m → Fin n → ℚ)
    (y : Fin m → ℚ) (w : Fin n → ℚ) (j : Fin n) :
    0 ≤ pgdStep step A y w j :=
  le_max_left 0 _

theorem sgdRun_nonneg {m n : ℕ} (step : ℚ)
    (ckptEvery maxNonImproving : ℕ) (A : Fin m → Fin n → ℚ)
    (y : Fin m → ℚ) (fuel t : ℕ) (s : SgdState n)
    (hw : ∀ j, 0 ≤ s.w j) (hb : ∀ j, 0 ≤ s.bestW j) :
    (∀ j, 0 ≤ (sgdRun step ckptEvery maxNonImproving A y fuel t s).w j) ∧
    (∀ j, 0 ≤ (sgdRun step ckptEvery maxNonImproving A y fuel t s).bestW j) := by
  induction fuel generalizing t s with
  | zero => exact ⟨hw, hb⟩
  | succ fuel ih =>
      rw [sgdRun]
      by_cases hstop : maxNonImproving ≤ s.nonImproving
      · simp only [if_pos hstop]
        exact ⟨hw, hb⟩
      · simp only [if_neg hstop]
        set s1 : SgdState n := { s with w := pgdStep step A y s.w } with hs1
        have hw1 : ∀ j, 0 ≤ s1.w j := fun j => pgdStep_nonneg step A y s.w j
        have hb1 : ∀ j, 0 ≤ s1.bestW j := hb
        by_cases hck : (t + 1) % ckptEvery = 0
        · simp only [if_pos hck]
          unfold sgdCheckpoint
          by_cases himp : sse A y s1.w < s1.bestErr
          · simp only [if_pos himp]
            exact ih (t + 1) _ hw1 hw1
          · simp only [if_neg himp]
            exact ih (t + 1) _ hw1 hb1
        · simp only [if_neg hck]
          exact ih (t + 1) _ hw1 hb1

/-- C1: for every design matrix and observed signal vector, the
weights the (spec-modelled) solver behind `FiberModel.fiber_weights`
returns are component-wise non-negative: iterates start at zero and
every `max(0, w - step * gradient)` update keeps every component at or
above zero, so the best-checkpoint weights returned satisfy
`w[j] >= 0` for every streamline `j`. -/
theorem fiber_weights_nonneg {m n : ℕ} (step : ℚ)
    (ckptEvery maxNonImproving maxIter : ℕ) (A : Fin m → Fin n → ℚ)
    (y : Fin m → ℚ) (j : Fin n) :
    0 ≤ stochastic_gradient_descent step ckptEvery maxNonImproving maxIter A y j := by
  unfold stochastic_gradient_descent
  exact (sgdRun_nonneg step ckptEvery maxNonImproving A y maxIter 0 _
    (fun _ => le_refl 0) (fun _ => le_refl 0)).2 j

/-! ## Design-matrix assembly stores only the last incident fiber -/

/-- C2: on a voxel crossed by two streamlines with distinct node
signals, the assembly loop of `FiberModel.matrix` stores a single
block — the last enumerated fiber's column and signal — although both
fibers are incident; a per-(voxel, fiber) assembly (the claim's
reading, `claimMatrixBlocks`) would store both. -/
theorem matrix_stores_only_last_incident_fiber :
    srcMatrixBlocks demoMatrixInput = [⟨0, 1, [10, 20]⟩] ∧
    claimMatrixBlocks demoMatrixInput = [⟨0, 0, [2, 4]⟩, ⟨0, 1, [10, 20]⟩] ∧
    incidentFibers (demoMatrixInput.v2f.getD 0 []) = [0, 1] := by
  refine ⟨?_, ?_, ?_⟩ <;>
    simp [srcMatrixBlocks, claimMatrixBlocks, demoMatrixInput, incidentFibers,
      predSigFor, nodesInVoxel, listAdd, zerosQ, nodeContrib, List.range_succ]

/-! ## Node demeaning subtracts the measured voxel mean -/

/-- C3 counterexample: a node whose predicted signal is `[1, 3]` in a
voxel whose measured relative signal is `[0, 0]` is stored as `[1, 3]`
(the measured mean, 0, is subtracted), not as the self-demeaned
`[-1, 1]` the claim describes, and the stored vector's mean is 2, not
zero. -/
theorem node_demeaning_not_own_mean :
    nodeContrib [1, 3] (listMean [0, 0]) = [1, 3] ∧
    nodeContribOwnMean [1, 3] = [-1, 1] ∧
    listMean (nodeContrib [1, 3] (listMean [0, 0])) = 2 ∧
    (2 : ℚ) ≠ 0 := by
  refine ⟨?_, ?_, ?_, by norm_num⟩ <;>
    simp [nodeContrib, nodeContribOwnMean, listMean] <;> norm_num

/-- C3 amended: each stored per-node contribution is the predicted
signal minus the mean of the *measured* relative signal at the node's
voxel, so its mean over directions is `mean(predicted) -
mean(measured)` — zero only when the two means coincide, not by
construction. -/
theorem sum_map_sub_const (l : List ℚ) (c : ℚ) :
    (l.map (fun x => x - c)).sum = l.sum - l.length * c := by
  induction l with
  | nil => simp
  | cons a t ih =>
      simp only [List.map_cons, List.sum_cons, ih, List.length_cons]
      push_cast
      ring

theorem node_contrib_mean_shift (pred meas : List ℚ) (h : pred ≠ []) :
    listMean (nodeContrib pred (listMean meas)) =
      listMean pred - listMean meas := by
  unfold nodeContrib listMean
  rw [sum_map_sub_const, List.length_map]
  have hne : (pred.length : ℚ) ≠ 0 :=
    Nat.cast_ne_zero.mpr (fun hh => h (List.length_eq_zero.mp hh))
  field_simp

/-- C3 amended, witness: at predicted signal `[1, 3]` and measured
voxel signal `[0, 0]` the stored contribution's mean is
`mean [1, 3] - mean [0, 0]`. -/
theorem node_contrib_mean_shift_witness :
    listMean (nodeContrib [1, 3] (listMean [0, 0])) =
      listMean [1, 3] - listMean [0, 0] :=
  node_contrib_mean_shift [1, 3] [0, 0] (by simp)

/-! ## The predicted signal's exponent has the wrong sign and no
b-value -/

/-- C4: at a node tensor `diag(0.0012, 0.0006, 0.0006)`, direction
`[1,0,0]` and b-value 1000, the exponent `Fiber.predicted_signal`
hands to `np.exp` is `+0.0012` — the raw ADC, unscaled and unnegated —
while the Stejskal-Tanner law of the claim (and of the method's own
docstring) prescribes `-1000 * 0.0012 = -1.2`; the two give different
signals since `exp` is injective. -/
theorem predicted_signal_exponent_sign_bug :
    predictedSignalExponents (Matrix.diagonal ![3/2500, 3/5000, 3/5000])
        [![1, 0, 0]] = [3/2500] ∧
    stejskalTannerExponents [1000] [![1, 0, 0]]
        (Matrix.diagonal ![3/2500, 3/5000, 3/5000]) = [-(6/5)] ∧
    Real.exp ((3 : ℝ)/2500) ≠ Real.exp (-(6/5)) := by
  refine ⟨?_, ?_, ?_⟩
  · norm_num [predictedSignalExponents, apparent_diffusion_coef, adcQ,
      Fin.sum_univ_three, Matrix.diagonal]
  · norm_num [stejskalTannerExponents, adcQ, Fin.sum_univ_three,
      Matrix.diagonal]
  · intro h
    rw [Real.exp_eq_exp] at h
    norm_num at h

/-! ## Voxel assignment truncates instead of rounding -/

/-- C5: the node `[1.1, 2.4, 2.9]` (from the repository's own
`test_voxel2streamline`) is cast by `astype(int)` to voxel `(1, 2, 2)`,
while the claimed round-to-nearest convention puts it in `(1, 2, 3)` —
the code truncates toward zero, it does not round. -/
theorem voxel_assignment_truncates :
    voxelOf3 testNode = (1, 2, 2) ∧
    roundVoxelOf3 testNode = (1, 2, 3) ∧
    ((1, 2, 2) : Voxel) ≠ (1, 2, 3) := by
  refine ⟨?_, ?_, by decide⟩
  · unfold testNode voxelOf3 npAstypeInt
    norm_num
  · unfold testNode roundVoxelOf3 roundHalfAwayFromZero
    norm_num

/-! ## Single-node fibers are accepted -/

/-- C7 counterexample: the 3-by-1 coordinate array `[[1],[2],[3]]` — a
single-node streamline — is accepted by `Fiber.__init__`, which sets
`n_nodes = 1`; nothing rejects fibers with fewer than 2 nodes. -/
theorem single_node_fiber_accepted :
    fiberInit (.two [[1], [2], [3]]) = .ok ⟨.two [[1], [2], [3]], 1⟩ ∧
    (1 : ℕ) < 2 := by
  exact ⟨rfl, by decide⟩

/-- C7 amended: `Fiber.__init__` rejects exactly the inputs that are
not 3-by-n arrays (more than two dimensions, or first dimension not
3); every 3-by-1 two-dimensional input and every 1-d length-3 input is
accepted as a single-node fiber with `n_nodes = 1`. -/
theorem fiber_init_checks_shape_only :
    (∀ x y z : ℚ, fiberInit (.two [[x], [y], [z]]) =
      .ok ⟨.two [[x], [y], [z]], 1⟩) ∧
    (∀ x y z : ℚ, fiberInit (.one [x, y, z]) = .ok ⟨.one [x, y, z], 1⟩) ∧
    (∀ d : ℕ, (fiberInit (.higher d)).isOk = false) ∧
    (∀ rows : List (List ℚ),
      ((fiberInit (.two rows)).isOk = true ↔ rows.length = 3)) := by
  refine ⟨fun x y z => rfl, fun x y z => rfl, fun d => rfl, fun rows => ?_⟩
  unfold fiberInit
  by_cases h : rows.length = 3 <;> simp [h, Except.isOk, Except.toBool]

/-! ## Scenario A: the literal two-streamline incidence map -/

/-- C8: for the streamlines `[[1,2,3],[4,5,3],[5,6,3],[6,7,3]]` and
`[[1,2,3],[4,5,3],[5,6,3]]` under the identity affine, the unique
voxel list is exactly `(1,2,3), (4,5,3), (5,6,3), (6,7,3)`, the
voxel-by-fiber grid records one node of each streamline in each of the
first three voxels and only the first streamline in the fourth, and
the fiber-by-node grid assigns node `k` of each streamline to voxel
serial `k` (the second streamline's unused fourth slot keeping the
`nan` fill). -/
theorem voxel2fiber_scenarioA :
    fgIdxUnique [streamA, streamB] =
      [(1, 2, 3), (4, 5, 3), (5, 6, 3), (6, 7, 3)] ∧
    v2fCounts [streamA, streamB] = [[1, 1], [1, 1], [1, 1], [1, 0]] ∧
    v2fnGrid [streamA, streamB] =
      [[some 0, some 1, some 2, some 3], [some 0, some 1, some 2, none]] :=
  ⟨rfl, rfl, rfl⟩

/-! ## The node tensor has only two distinct diffusivities -/

/-- C9: at tangent `[1,0,0]` (whose 1-by-3 SVD right factor is the
identity), `Fiber.tensors` builds `diag(axial, radial, radial)`; the
constructor takes only an axial and a radial diffusivity, so with
`axial = 0.0012, radial = 0.0006` the tensor's eigenvalue triple is
`(0.0012, 0.0006, 0.0006)`, never the three distinct canonical
eigenvalues `(0.0012, 0.0006, 0.0004)` the claim (and the repository's
`test_streamline_tensors`) requires. -/
theorem fiber_tensors_two_diffusivities_only :
    fiberTensorQ 1 (3/2500) (3/5000) =
      Matrix.diagonal ![3/2500, 3/5000, 3/5000] ∧
    (fiberTensorQ 1 (3/2500) (3/5000)) 2 2 = 3/5000 ∧
    ¬ (![(3 : ℚ)/2500, 3/5000, 3/5000] = ![3/2500, 3/5000, 1/2500]) := by
  refine ⟨by simp [fiberTensorQ], ?_, ?_⟩
  · simp [fiberTensorQ, Matrix.diagonal]
  · intro h
    have h2 := congrFun h 2
    simp at h2
    norm_num at h2

/-! ## Transforming twice restores a Fiber -/

theorem matInv_eq_inv (A : Matrix (Fin 4) (Fin 4) ℚ) : matInv A = A⁻¹ := by
  rw [Matrix.inv_def, Ring.inverse_eq_inv']
  rfl

theorem mulVec_last_of_affine_row (A : Matrix (Fin 4) (Fin 4) ℚ)
    (hrow : ∀ j, A (Fin.last 3) j = if j = Fin.last 3 then 1 else 0)
    (v : Fin 4 → ℚ) : (A.mulVec v) (Fin.last 3) = v (Fin.last 3) := by
  simp [Matrix.mulVec, Matrix.dotProduct, hrow, ite_mul]

theorem homogenize_projectHom (v : Fin 4 → ℚ) (hv : v (Fin.last 3) = 1) :
    homogenize (projectHom v) = v := by
  funext j
  induction j using Fin.lastCases with
  | last => simp [homogenize, projectHom, hv]
  | cast i => simp [homogenize, projectHom]

theorem projectHom_homogenize (p : Fin 3 → ℚ) :
    projectHom (homogenize p) = p := by
  funext i
  simp [homogenize, projectHom]

theorem applyAffine_inv_cancel (A : Matrix (Fin 4) (Fin 4) ℚ)
    (hdet : IsUnit A.det)
    (hrow : ∀ j, A (Fin.last 3) j = if j = Fin.last 3 then 1 else 0)
    (p : Fin 3 → ℚ) : applyAffine (matInv A) (applyAffine A p) = p := by
  unfold applyAffine
  rw [homogenize_projectHom (A.mulVec (homogenize p))
    (by rw [mulVec_last_of_affine_row A hrow]; simp [homogenize])]
  rw [matInv_eq_inv, Matrix.mulVec_mulVec, Matrix.nonsing_inv_mul A hdet,
    Matrix.one_mulVec, projectHom_homogenize]

/-- C10: for a Fiber holding an invertible homogeneous affine (last
row `(0,0,0,1)`), calling `xform()` twice in place is the identity:
the first call maps the coordinates through the affine and stores the
affine's inverse, and the second restores both the coordinates and the
affine. -/
theorem fiber_xform_twice_id (f : LifeFiber)
    (A : Matrix (Fin 4) (Fin 4) ℚ) (hf : f.affine = some A)
    (hdet : IsUnit A.det)
    (hrow : ∀ j, A (Fin.last 3) j = if j = Fin.last 3 then 1 else 0) :
    fiberXform (fiberXform f) = f := by
  obtain ⟨coords, aff⟩ := f
  simp only at hf
  subst hf
  show fiberXform ⟨coords.map (applyAffine A), some (matInv A)⟩ = _
  show (⟨(coords.map (applyAffine A)).map (applyAffine (matInv A)),
    some (matInv (matInv A))⟩ : LifeFiber) = _
  have hcoords : (coords.map (applyAffine A)).map (applyAffine (matInv A))
      = coords := by
    rw [List.map_map]
    have : applyAffine (matInv A) ∘ applyAffine A = id := by
      funext p
      exact applyAffine_inv_cancel A hdet hrow p
    rw [this, List.map_id]
  have haff : matInv (matInv A) = A := by
    rw [matInv_eq_inv, matInv_eq_inv, Matrix.nonsing_inv_nonsing_inv A hdet]
  rw [hcoords, haff]

/-- C10 witness: the two-node fiber `demoFiber`, whose affine scales
by 2, 3, 4 and translates, is restored exactly by two in-place
transforms. -/
theorem fiber_xform_twice_id_witness :
    fiberXform (fiberXform demoFiber) = demoFiber := by
  refine fiber_xform_twice_id demoFiber demoAffine rfl ?_ ?_
  · apply isUnit_iff_ne_zero.mpr
    simp [demoAffine, Matrix.det_succ_row_zero, Fin.sum_univ_succ]
  · intro j
    fin_cases j <;>
      simp [demoAffine, Fin.last, Matrix.vecHead, Matrix.vecTail]

end Life

